import Mathlib

/-!
Verification of the vestigo ingestion/indexing engine against its
natural-language specification.  The Go source is shallowly embedded:
pure helpers become Lean functions, the stateful controller write path
becomes explicit state passing over a relational-store/ANN-graph state
type, and fallible calls return Except.  A float32 value is represented
by its IEEE-754 bit pattern, a natural number below 2^32, because the
Go code only ever moves the bits (math.Float32bits / math.Float32frombits
are mutually inverse on all bit patterns, including NaN payloads).
-/

/-! ### Vector codec (src/utils/bytes.go) -/

/-- Embeds utils.ConvertFloat32ArrayToBytes: serialize each float32
(given by its bit pattern) into four little-endian bytes.  The Go loop
writes byte(bits), byte(bits>>8), byte(bits>>16), byte(bits>>24) at
consecutive positions; the recursion emits the same byte stream. -/
def ConvertFloat32ArrayToBytes : List Nat → List Nat
  | [] => []
  | bits :: rest =>
      bits % 256 :: (bits >>> 8) % 256 :: (bits >>> 16) % 256 :: (bits >>> 24) % 256 ::
      ConvertFloat32ArrayToBytes rest

/-- The uint32 reassembly from four little-endian bytes, as in the Go source:
uint32(b0) | uint32(b1)<<8 | uint32(b2)<<16 | uint32(b3)<<24. -/
def assembleFloat32 (b0 b1 b2 b3 : Nat) : Nat :=
  b0 ||| (b1 <<< 8) ||| (b2 <<< 16) ||| (b3 <<< 24)

/-- The decode loop body of utils.ConvertBytesToFloat32Array: consume the
byte stream four bytes at a time. -/
def convertBytesGroups : List Nat → List Nat
  | b0 :: b1 :: b2 :: b3 :: rest => assembleFloat32 b0 b1 b2 b3 :: convertBytesGroups rest
  | _ => []

/-- Embeds utils.ConvertBytesToFloat32Array: a buffer whose length is not a
multiple of four yields no result (the Go function returns nil). -/
def ConvertBytesToFloat32Array (bytes : List Nat) : Option (List Nat) :=
  if bytes.length % 4 ≠ 0 then none
  else some (convertBytesGroups bytes)

theorem length_convertFloat32ArrayToBytes (v : List Nat) :
    (ConvertFloat32ArrayToBytes v).length = 4 * v.length := by
  induction v with
  | nil => rfl
  | cons f rest ih =>
      simp [ConvertFloat32ArrayToBytes, ih]
      omega

theorem testBit_mod_256 (x i : Nat) :
    (x % 256).testBit i = (decide (i < 8) && x.testBit i) := by
  have h : (256 : Nat) = 2 ^ 8 := by norm_num
  rw [h, Nat.testBit_mod_two_pow]

theorem assembleFloat32_split (x : Nat) (hx : x < 2 ^ 32) :
    assembleFloat32 (x % 256) ((x >>> 8) % 256) ((x >>> 16) % 256) ((x >>> 24) % 256) = x := by
  apply Nat.eq_of_testBit_eq
  intro i
  simp only [assembleFloat32, Nat.testBit_lor, Nat.testBit_shiftLeft, testBit_mod_256,
    Nat.testBit_shiftRight]
  by_cases h8 : i < 8
  · have h1 : ¬ (i ≥ 8) := by omega
    have h2 : ¬ (i ≥ 16) := by omega
    have h3 : ¬ (i ≥ 24) := by omega
    simp [h8, h1, h2, h3]
  · by_cases h16 : i < 16
    · have h1 : i ≥ 8 := by omega
      have e1 : 8 + (i - 8) = i := by omega
      have h2 : ¬ (i ≥ 16) := by omega
      have h3 : ¬ (i ≥ 24) := by omega
      simp [h8, h1, h2, h3, e1, show i - 8 < 8 by omega]
    · by_cases h24 : i < 24
      · have h1 : i ≥ 16 := by omega
        have e1 : 16 + (i - 16) = i := by omega
        have h2 : ¬ (i ≥ 24) := by omega
        simp [h8, h16, h1, h2, e1, show i - 16 < 8 by omega, show ¬ (i - 8 < 8) by omega]
      · by_cases h32 : i < 32
        · have h1 : i ≥ 24 := by omega
          have e1 : 24 + (i - 24) = i := by omega
          simp [h8, h16, h24, h1, e1, show i - 24 < 8 by omega,
            show ¬ (i - 8 < 8) by omega, show ¬ (i - 16 < 8) by omega]
        · have hz : x.testBit i = false := by
            apply Nat.testBit_eq_false_of_lt
            calc x < 2 ^ 32 := hx
            _ ≤ 2 ^ i := Nat.pow_le_pow_right (by norm_num) (by omega)
          simp [h8, h16, h24, hz, show ¬ (i - 8 < 8) by omega,
            show ¬ (i - 16 < 8) by omega, show ¬ (i - 24 < 8) by omega]

theorem convertBytesGroups_encode (v : List Nat) (hv : ∀ x ∈ v, x < 2 ^ 32) :
    convertBytesGroups (ConvertFloat32ArrayToBytes v) = v := by
  induction v with
  | nil => rfl
  | cons f rest ih =>
      have hf : f < 2 ^ 32 := hv f (by simp)
      have hrest : ∀ x ∈ rest, x < 2 ^ 32 := fun x hx => hv x (by simp [hx])
      simp [ConvertFloat32ArrayToBytes, convertBytesGroups, ih hrest,
        assembleFloat32_split f hf]

/-- Claim C4: the vector codec round-trips every float32 vector (decoding the
little-endian encoding recovers the original bit patterns, hence the original
float32 values, including zero, negative zero and maximum-magnitude patterns),
encoding N floats yields exactly 4×N bytes, and decoding a buffer whose length
is not a multiple of four returns no result. -/
theorem vector_codec_spec :
    (∀ v : List Nat, (∀ x ∈ v, x < 2 ^ 32) →
      ConvertBytesToFloat32Array (ConvertFloat32ArrayToBytes v) = some v ∧
      (ConvertFloat32ArrayToBytes v).length = 4 * v.length) ∧
    (∀ bytes : List Nat, bytes.length % 4 ≠ 0 →
      ConvertBytesToFloat32Array bytes = none) := by
  constructor
  · intro v hv
    refine ⟨?_, length_convertFloat32ArrayToBytes v⟩
    unfold ConvertBytesToFloat32Array
    rw [length_convertFloat32ArrayToBytes]
    simp [Nat.mul_mod_right, convertBytesGroups_encode v hv]
  · intro bytes hb
    unfold ConvertBytesToFloat32Array
    simp [hb]

/-- Witness for C4: concrete evaluation on the empty vector, on a vector holding
the bit patterns of 0.0, -0.0 (0x80000000) and the maximum-magnitude finite
float32 (0x7F7FFFFF), and on a 3-byte buffer that is not a multiple of four. -/
theorem vector_codec_spec_witness :
    ConvertBytesToFloat32Array (ConvertFloat32ArrayToBytes [0, 2147483648, 2139095039]) =
      some [0, 2147483648, 2139095039] ∧
    (ConvertFloat32ArrayToBytes [0, 2147483648, 2139095039]).length = 4 * 3 ∧
    ConvertBytesToFloat32Array (ConvertFloat32ArrayToBytes []) = some [] ∧
    ConvertBytesToFloat32Array [1, 2, 3] = none := by
  refine ⟨?_, ?_, ?_, ?_⟩
  · exact (vector_codec_spec.1 [0, 2147483648, 2139095039] (by decide)).1
  · exact (vector_codec_spec.1 [0, 2147483648, 2139095039] (by decide)).2
  · exact (vector_codec_spec.1 [] (by decide)).1
  · exact vector_codec_spec.2 [1, 2, 3] (by decide)

/-! ### Text normalizer (text/normalize source, CJKNormalizer) -/

/-- Embeds text.CJKNormalizer: the NFKC pass (golang.org/x/text, a total
string transformation, abstracted as a field) and the two optional opencc
converters, present exactly when the corresponding toggle was set at
construction.  A converter call is fallible in the Go signature. -/
structure CJKNormalizer where
  nfkc : String → String
  jp2t : Option (String → Except String String)
  t2s : Option (String → Except String String)

/-- Embeds CJKNormalizer.Normalize: NFKC, then the optional Japanese-new-kanji
conversion, then the optional traditional-to-simplified conversion, each
propagating a converter error, then lowercase folding of the result. -/
def CJKNormalizer.Normalize (n : CJKNormalizer) (text : String) : Except String String := do
  let s0 := n.nfkc text
  let s1 ← match n.jp2t with
    | some conv => conv s0
    | none => pure s0
  let s2 ← match n.t2s with
    | some conv => conv s1
    | none => pure s1
  return s2.toLower

/-- Modelled from the spec: the opencc script-conversion step
(github.com/longbridgeapp/opencc, not part of this repository).  Per §4.1
construction loads the conversion tables and fails fatally if they cannot
load, and per-call normalization cannot fail; so once constructed, a
converter is a total function over strings, wrapped in the fallible Go
signature with the error branch never taken. -/
def openccConvert (table : String → String) : String → Except String String :=
  fun s => Except.ok (table s)

/-- Embeds text.NewCJKNormalizer: each converter is installed exactly when its
toggle is set; the conversion tables themselves are external data, abstracted
as total functions (see openccConvert). -/
def NewCJKNormalizer (nfkcFn jp2tTable t2sTable : String → String)
    (useJp2t useT2s : Bool) : CJKNormalizer :=
  { nfkc := nfkcFn
    jp2t := if useJp2t then some (openccConvert jp2tTable) else none
    t2s := if useT2s then some (openccConvert t2sTable) else none }

/-- Claim C7: once construction has succeeded, Normalize always returns a
normalized token — the per-call error branch is unreachable — for every
combination of the two folding toggles and every input token. -/
theorem normalize_never_fails (nfkcFn jp2tTable t2sTable : String → String)
    (useJp2t useT2s : Bool) (text : String) :
    ∃ r : String,
      (NewCJKNormalizer nfkcFn jp2tTable t2sTable useJp2t useT2s).Normalize text =
        Except.ok r := by
  cases useJp2t <;> cases useT2s <;> exact ⟨_, rfl⟩

/-! ### Relational data model (controller/sqlc/schema.sql, dao queries) -/

/-- A row of the document table. -/
structure DocumentRow where
  id : String
  title : String
  description : String
  data : String
deriving DecidableEq, Repr

/-- A row of the text_chunk table (dao.TextChunk). -/
structure TextChunk where
  id : String
  documentId : String
  content : String
  segContent : String
deriving DecidableEq, Repr

/-- A row of the text_chunk_fts virtual table (the lexical index entry). -/
structure FTSRow where
  id : String
  segContent : String
deriving DecidableEq, Repr

/-- A row of the text_embedding table; vector is the serialized blob. -/
structure TextEmbeddingRow where
  modelId : String
  textChunkId : String
  vector : List Nat
deriving DecidableEq, Repr

/-- The relational store: one list per table, in insertion order. -/
structure DB where
  documents : List DocumentRow
  chunks : List TextChunk
  fts : List FTSRow
  embeddings : List TextEmbeddingRow
deriving DecidableEq, Repr

/-- A node of an hnsw graph: chunk id and embedding vector. -/
structure AnnNode where
  key : String
  value : List Nat
deriving DecidableEq, Repr

/-- The full system state: the relational store plus one ANN graph per
embedding model id (c.embeddingIndexes).  The graphs live outside the
relational transaction. -/
structure SysState where
  db : DB
  ann : List (String × List AnnNode)
deriving DecidableEq, Repr

/-- Externally visible actions of a controller operation, in program order.
commit and rollback are emitted by the transaction wrapper. -/
inductive Event where
  | newChunkRow (chunkId : String)
  | insertFTS (chunkId : String)
  | annAdd (modelId chunkId : String)
  | newEmbeddingRow (modelId chunkId : String)
  | delEmbeddingsByDoc (docId : String)
  | delFTSByDoc (docId : String)
  | delChunksByDoc (docId : String)
  | delDocument (docId : String)
  | annDelete (modelId chunkId : String)
  | commit
  | rollback
deriving DecidableEq, Repr

/-- Embeds utils.WithTx (src/unnamed/part_004): run the body against the
transaction; if it returns an error, the relational state is rolled back to
the state at BeginTx, while ANN-graph mutations made by the body persist
(the graphs are process memory, not covered by the transaction); if it
returns ok, the transaction commits and the whole new state stands.  The
event trace records the actions of the body followed by commit or
rollback. -/
def WithTx {T : Type} (s : SysState)
    (fn : SysState → (Except String T × SysState) × List Event) :
    (Except String T × SysState) × List Event :=
  match fn s with
  | ((Except.ok t, s1), evs) => ((Except.ok t, s1), evs ++ [Event.commit])
  | ((Except.error e, s1), evs) =>
      ((Except.error e, { db := s.db, ann := s1.ann }), evs ++ [Event.rollback])

/-! ### Controller (src/controller/controller.go, second revision) -/

/-- An embedding provider (models.BaseEmbeddingModel): Embed maps a batch of
texts to a batch of vectors, or fails. -/
structure EmbeddingModel where
  embed : List String → Except String (List (List Nat))

/-- The controller dependencies used by the write path: the tokenizer
(text.Tokenizer, external gse segmenter, a total deterministic function),
the normalizer interface (fallible per the Go signature), and the
configured embedding models keyed by model id.  c.embeddingModels and
c.embeddingIndexes share this key set by construction (NewController
builds one graph per model id). -/
structure Controller where
  tokenize : String → List String
  normalize : String → Except String String
  models : List (String × EmbeddingModel)

/-- The per-token closure inside createTextChunks: normalize the token; on a
normalization error, log and keep the raw token. -/
def normalizeToken (ctrl : Controller) (item : String) : String :=
  match ctrl.normalize item with
  | Except.ok normText => normText
  | Except.error _ => item

/-- hnsw graph.Add: insert a node, overwriting any node with the same key. -/
def graphAdd (g : List AnnNode) (node : AnnNode) : List AnnNode :=
  g.filter (fun n => n.key != node.key) ++ [node]

/-- Update the graph of one model id in the embeddingIndexes map. -/
def annAddNode (ann : List (String × List AnnNode)) (modelId : String)
    (node : AnnNode) : List (String × List AnnNode) :=
  ann.map (fun mg => if mg.fst == modelId then (mg.fst, graphAdd mg.snd node) else mg)

/-- The state change of one successful iteration of the per-model loop in
createTextChunks: graph.Add of the vector under the chunk id, then the
NewTextEmbedding row insert recording the serialized vector. -/
def embedStep (s : SysState) (modelId chunkId : String) (v : List Nat) : SysState :=
  { ann := annAddNode s.ann modelId { key := chunkId, value := v },
    db := { s.db with embeddings := s.db.embeddings ++
      [{ modelId := modelId, textChunkId := chunkId,
         vector := ConvertFloat32ArrayToBytes v }] } }

/-- The per-model loop of createTextChunks (controller.go lines 737-758): for
each configured embedding model, embed the raw text, require exactly one
returned vector, add the vector to that model's ANN graph, then insert the
TextEmbedding row with the serialized vector. -/
def embedLoop (chunkId text : String) :
    List (String × EmbeddingModel) → SysState →
    (Except String Unit × SysState) × List Event
  | [], s => ((Except.ok (), s), [])
  | (modelId, model) :: rest, s =>
    match model.embed [text] with
    | Except.error e => ((Except.error e, s), [])
    | Except.ok [v] =>
      match embedLoop chunkId text rest (embedStep s modelId chunkId v) with
      | ((r, s3), evs) =>
        ((r, s3), Event.annAdd modelId chunkId :: Event.newEmbeddingRow modelId chunkId :: evs)
    | Except.ok _ =>
      ((Except.error "embedding model returned unexpected number of embeddings", s), [])

/-- The TextChunk value built at the top of createTextChunks (controller.go
lines 708-724): tokenize the raw text, normalize each token keeping the raw
token on a per-token normalization error, and derive seg_content by
space-joining the raw tokens followed by the normalized tokens (the Go code
is strings.Join(append(tokenizedText, tokenizedNormalizedText...), " ")).
newUUID stands for the freshly generated chunk id. -/
def chunkRowOf (ctrl : Controller) (docId newUUID text : String) : TextChunk :=
  { id := newUUID, documentId := docId, content := text,
    segContent := String.intercalate " "
      (ctrl.tokenize text ++ (ctrl.tokenize text).map (normalizeToken ctrl)) }

/-- The two row inserts of createTextChunks (controller.go lines 726-736):
queries.NewTextChunk, then queries.InsertTextChunkFTS with the same id and
seg_content, in the same transaction. -/
def insertChunkAndFTS (s : SysState) (newText : TextChunk) : SysState :=
  { s with db :=
      { s.db with
        chunks := s.db.chunks ++ [newText],
        fts := s.db.fts ++ [{ id := newText.id, segContent := newText.segContent }] } }

/-- Embeds Controller.createTextChunks (controller.go lines 703-760): build
the chunk row, insert the TextChunk row and the matching FTS row, then run
the per-model embedding loop; on success return the persisted chunk. -/
def createTextChunks (ctrl : Controller) (docId newUUID text : String)
    (s : SysState) : (Except String TextChunk × SysState) × List Event :=
  match embedLoop newUUID text ctrl.models
      (insertChunkAndFTS s (chunkRowOf ctrl docId newUUID text)) with
  | ((r, s3), evs) =>
    ((r.map (fun _ => chunkRowOf ctrl docId newUUID text), s3),
     Event.newChunkRow newUUID :: Event.insertFTS newUUID :: evs)

/-- Controller.NewTextChunk: createTextChunks wrapped in utils.WithTx. -/
def NewTextChunkOp (ctrl : Controller) (docId newUUID text : String)
    (s : SysState) : (Except String TextChunk × SysState) × List Event :=
  WithTx s (createTextChunks ctrl docId newUUID text)

theorem WithTx_ok {T : Type} (s : SysState)
    (fn : SysState → (Except String T × SysState) × List Event) (t : T)
    (h : (WithTx s fn).fst.fst = Except.ok t) : (fn s).fst.fst = Except.ok t := by
  unfold WithTx at h
  rcases hf : fn s with ⟨⟨r, s1⟩, evs⟩
  rw [hf] at h
  cases r with
  | ok u => simpa using h
  | error e => simp at h

theorem WithTx_error_db {T : Type} (s : SysState)
    (fn : SysState → (Except String T × SysState) × List Event) (e : String)
    (hf : (fn s).fst.fst = Except.error e) :
    (WithTx s fn).fst.fst = Except.error e ∧ (WithTx s fn).fst.snd.db = s.db := by
  unfold WithTx
  rcases hfn : fn s with ⟨⟨r, s1⟩, evs⟩
  rw [hfn] at hf
  cases r with
  | ok u => simp at hf
  | error e2 =>
      simp at hf
      subst hf
      simp

theorem embedLoop_all_single_ok (chunkId text : String)
    (models : List (String × EmbeddingModel)) :
    ∀ s : SysState, (∀ p ∈ models, ∃ v, p.snd.embed [text] = Except.ok [v]) →
      (embedLoop chunkId text models s).fst.fst = Except.ok () := by
  induction models with
  | nil => intro s _; rfl
  | cons p rest ih =>
      intro s h
      rcases p with ⟨modelId, model⟩
      rcases h (modelId, model) (by simp) with ⟨v, hv⟩
      have hv2 : model.embed [text] = Except.ok [v] := hv
      have hrest : ∀ q ∈ rest, ∃ v, q.snd.embed [text] = Except.ok [v] :=
        fun q hq => h q (by simp [hq])
      have hrec := ih (embedStep s modelId chunkId v) hrest
      simp only [embedLoop, hv2]
      simpa using hrec

theorem embedLoop_mismatch_error (chunkId text : String)
    (models : List (String × EmbeddingModel)) :
    ∀ s : SysState,
      (∃ p ∈ models, ∃ embs, p.snd.embed [text] = Except.ok embs ∧ embs.length ≠ 1) →
      ∃ e, (embedLoop chunkId text models s).fst.fst = Except.error e := by
  induction models with
  | nil => intro s h; simp at h
  | cons p rest ih =>
      intro s h
      rcases p with ⟨modelId, model⟩
      rcases hm : model.embed [text] with e | embs
      · exact ⟨e, by simp [embedLoop, hm]⟩
      · match embs, hm with
        | [], hm =>
            refine ⟨"embedding model returned unexpected number of embeddings", ?_⟩
            simp [embedLoop, hm]
        | [v], hm =>
            have hrest : ∃ q ∈ rest, ∃ embs,
                q.snd.embed [text] = Except.ok embs ∧ embs.length ≠ 1 := by
              rcases h with ⟨q, hq, embs2, he2, hl2⟩
              rcases List.mem_cons.mp hq with hq1 | hq2
              · exfalso
                subst hq1
                rw [hm] at he2
                simp at he2
                subst he2
                simp at hl2
              · exact ⟨q, hq2, embs2, he2, hl2⟩
            rcases ih (embedStep s modelId chunkId v) hrest with ⟨e2, he2⟩
            refine ⟨e2, ?_⟩
            simp only [embedLoop, hm]
            simpa using he2
        | v :: w :: tl, hm =>
            refine ⟨"embedding model returned unexpected number of embeddings", ?_⟩
            simp [embedLoop, hm]

theorem exceptMap_eq_ok {A B : Type} {f : A → B} {x : Except String A} {b : B}
    (h : Except.map f x = Except.ok b) : ∃ a, x = Except.ok a ∧ b = f a := by
  cases x with
  | ok a => exact ⟨a, rfl, by simpa [Except.map] using h.symm⟩
  | error e => simp [Except.map] at h

theorem createTextChunks_ok_shape (ctrl : Controller) (docId newUUID text : String)
    (s : SysState) (ch : TextChunk)
    (h : (createTextChunks ctrl docId newUUID text s).fst.fst = Except.ok ch) :
    ch = chunkRowOf ctrl docId newUUID text := by
  simp only [createTextChunks] at h
  obtain ⟨u, _, hch⟩ := exceptMap_eq_ok h
  exact hch

theorem createTextChunks_ok_of_models (ctrl : Controller) (docId newUUID text : String)
    (s : SysState) (hm : ∀ p ∈ ctrl.models, ∃ v, p.snd.embed [text] = Except.ok [v]) :
    (createTextChunks ctrl docId newUUID text s).fst.fst =
      Except.ok (chunkRowOf ctrl docId newUUID text) := by
  simp only [createTextChunks]
  rw [embedLoop_all_single_ok newUUID text ctrl.models
    (insertChunkAndFTS s (chunkRowOf ctrl docId newUUID text)) hm]
  rfl

theorem createTextChunks_mismatch_error (ctrl : Controller) (docId newUUID text : String)
    (s : SysState)
    (h : ∃ p ∈ ctrl.models, ∃ embs, p.snd.embed [text] = Except.ok embs ∧ embs.length ≠ 1) :
    ∃ e, (createTextChunks ctrl docId newUUID text s).fst.fst = Except.error e := by
  simp only [createTextChunks]
  obtain ⟨e, he⟩ := embedLoop_mismatch_error newUUID text ctrl.models
    (insertChunkAndFTS s (chunkRowOf ctrl docId newUUID text)) h
  exact ⟨e, by rw [he]; rfl⟩

theorem WithTx_of_fn_ok {T : Type} (s : SysState)
    (fn : SysState → (Except String T × SysState) × List Event) (t : T)
    (h : (fn s).fst.fst = Except.ok t) : (WithTx s fn).fst.fst = Except.ok t := by
  unfold WithTx
  rcases hfn : fn s with ⟨⟨r, s1⟩, evs⟩
  rw [hfn] at h
  cases r with
  | ok u => simpa using h
  | error e => simp at h

/-- Claim C1: the derived seg_content of an indexed chunk is the space-joined
concatenation of the raw token sequence produced by Tokenize followed by the
per-token normalized forms of those same tokens, raw tokens first.  The
normalizer is assumed to succeed on every token (f is its value); the
fallback on a normalization failure is claim C10. -/
theorem seg_content_raw_then_normalized (ctrl : Controller)
    (docId newUUID text : String) (s : SysState) (ch : TextChunk)
    (f : String → String) (hnorm : ∀ t, ctrl.normalize t = Except.ok (f t))
    (hok : (NewTextChunkOp ctrl docId newUUID text s).fst.fst = Except.ok ch) :
    ch.segContent = String.intercalate " "
      (ctrl.tokenize text ++ (ctrl.tokenize text).map f) := by
  have hfn := WithTx_ok s (createTextChunks ctrl docId newUUID text) ch hok
  have hshape := createTextChunks_ok_shape ctrl docId newUUID text s ch hfn
  have hfun : normalizeToken ctrl = f := by
    funext t
    unfold normalizeToken
    rw [hnorm t]
  rw [hshape]
  simp [chunkRowOf, hfun]

/-- Witness for C1: a one-token controller whose normalizer appends an x and
has no embedding models; the stored seg_content is the raw token followed by
the normalized token, space-joined. -/
theorem seg_content_raw_then_normalized_witness :
    ({ id := "u", documentId := "d", content := "hello",
       segContent := "hello hellox" } : TextChunk).segContent =
      String.intercalate " " (["hello"] ++ (["hello"]).map (fun t => t ++ "x")) := by
  have h := seg_content_raw_then_normalized
    { tokenize := fun _ => ["hello"], normalize := fun t => Except.ok (t ++ "x"), models := [] }
    "d" "u" "hello"
    { db := { documents := [], chunks := [], fts := [], embeddings := [] }, ann := [] }
    { id := "u", documentId := "d", content := "hello", segContent := "hello hellox" }
    (fun t => t ++ "x") (fun t => rfl) rfl
  simpa using h

/-- Claim C2: if any configured embedding model returns a number of vectors
different from one for the single input text, the chunk-indexing operation
fails as a whole and the relational state is rolled back to its state before
the operation — no TextChunk, FTS or TextEmbedding row from the operation
persists. -/
theorem embedding_count_mismatch_rolls_back (ctrl : Controller)
    (docId newUUID text : String) (s : SysState)
    (h : ∃ p ∈ ctrl.models, ∃ embs,
      p.snd.embed [text] = Except.ok embs ∧ embs.length ≠ 1) :
    (∃ e, (NewTextChunkOp ctrl docId newUUID text s).fst.fst = Except.error e) ∧
    (NewTextChunkOp ctrl docId newUUID text s).fst.snd.db = s.db := by
  obtain ⟨e, he⟩ := createTextChunks_mismatch_error ctrl docId newUUID text s h
  obtain ⟨h1, h2⟩ := WithTx_error_db s (createTextChunks ctrl docId newUUID text) e he
  exact ⟨⟨e, h1⟩, h2⟩

/-- Witness for C2: one configured model returning two vectors; the operation
errors and the relational store (initially empty) is unchanged. -/
theorem embedding_count_mismatch_rolls_back_witness :
    (∃ e, (NewTextChunkOp
      { tokenize := fun _ => ["a"], normalize := fun t => Except.ok t,
        models := [("m1", { embed := fun _ => Except.ok [[0], [1]] })] }
      "d" "u" "a"
      { db := { documents := [], chunks := [], fts := [], embeddings := [] }, ann := [] }
      ).fst.fst = Except.error e) ∧
    (NewTextChunkOp
      { tokenize := fun _ => ["a"], normalize := fun t => Except.ok t,
        models := [("m1", { embed := fun _ => Except.ok [[0], [1]] })] }
      "d" "u" "a"
      { db := { documents := [], chunks := [], fts := [], embeddings := [] }, ann := [] }
      ).fst.snd.db =
      ({ db := { documents := [], chunks := [], fts := [], embeddings := [] },
         ann := [] } : SysState).db :=
  embedding_count_mismatch_rolls_back
    { tokenize := fun _ => ["a"], normalize := fun t => Except.ok t,
      models := [("m1", { embed := fun _ => Except.ok [[0], [1]] })] }
    "d" "u" "a"
    { db := { documents := [], chunks := [], fts := [], embeddings := [] }, ann := [] }
    ⟨("m1", { embed := fun _ => Except.ok [[0], [1]] }), by simp, [[0], [1]], rfl, by simp⟩

/-- Claim C10: a failure to normalize an individual token does not abort chunk
indexing — the raw token is used in its place inside seg_content and, when
every embedding model behaves, the operation still commits successfully. -/
theorem normalization_error_keeps_raw_token (ctrl : Controller)
    (docId newUUID text tok errMsg : String) (s : SysState)
    (hm : ∀ p ∈ ctrl.models, ∃ v, p.snd.embed [text] = Except.ok [v])
    (ht : tok ∈ ctrl.tokenize text)
    (he : ctrl.normalize tok = Except.error errMsg) :
    normalizeToken ctrl tok = tok ∧
    (NewTextChunkOp ctrl docId newUUID text s).fst.fst =
      Except.ok (chunkRowOf ctrl docId newUUID text) := by
  constructor
  · unfold normalizeToken
    rw [he]
  · exact WithTx_of_fn_ok s (createTextChunks ctrl docId newUUID text) _
      (createTextChunks_ok_of_models ctrl docId newUUID text s hm)

/-- Witness for C10: a normalizer that always fails, a tokenizer emitting one
token and one well-behaved embedding model; the raw token survives and the
operation returns the persisted chunk. -/
theorem normalization_error_keeps_raw_token_witness :
    normalizeToken
      { tokenize := fun _ => ["tok"], normalize := fun _ => Except.error "boom",
        models := [("m1", { embed := fun _ => Except.ok [[7]] })] } "tok" = "tok" ∧
    (NewTextChunkOp
      { tokenize := fun _ => ["tok"], normalize := fun _ => Except.error "boom",
        models := [("m1", { embed := fun _ => Except.ok [[7]] })] }
      "d" "u" "body"
      { db := { documents := [], chunks := [], fts := [], embeddings := [] },
        ann := [("m1", [])] }).fst.fst =
      Except.ok (chunkRowOf
        { tokenize := fun _ => ["tok"], normalize := fun _ => Except.error "boom",
          models := [("m1", { embed := fun _ => Except.ok [[7]] })] } "d" "u" "body") :=
  normalization_error_keeps_raw_token
    { tokenize := fun _ => ["tok"], normalize := fun _ => Except.error "boom",
      models := [("m1", { embed := fun _ => Except.ok [[7]] })] }
    "d" "u" "body" "tok" "boom"
    { db := { documents := [], chunks := [], fts := [], embeddings := [] },
      ann := [("m1", [])] }
    (by intro p hp; simp at hp; subst hp; exact ⟨[7], rfl⟩)
    (by simp) rfl

/-! ### Document deletion (controller.go lines 612-660, 778-784) -/

/-- dao.ListTextChunkIdByDocumentID: the ids of the chunks owned by a
document. -/
def listTextChunkIdByDocumentID (db : DB) (docId : String) : List String :=
  (db.chunks.filter (fun c => c.documentId == docId)).map (fun c => c.id)

/-- dao.DeleteTextEmbeddingsByDocumentID: delete every text_embedding row
whose text_chunk_id belongs to a chunk of the document. -/
def deleteTextEmbeddingsByDocumentID (db : DB) (docId : String) : DB :=
  { db with embeddings := (db.embeddings.filter
      (fun e => !(listTextChunkIdByDocumentID db docId).contains e.textChunkId)) }

/-- dao.DeleteTextChunkFTSByDocumentID: delete every FTS row whose id belongs
to a chunk of the document. -/
def deleteTextChunkFTSByDocumentID (db : DB) (docId : String) : DB :=
  { db with fts := (db.fts.filter
      (fun f => !(listTextChunkIdByDocumentID db docId).contains f.id)) }

/-- dao.DeleteTextChunksByDocumentID: delete the text_chunk rows of the
document. -/
def deleteTextChunksByDocumentID (db : DB) (docId : String) : DB :=
  { db with chunks := db.chunks.filter (fun c => c.documentId != docId) }

/-- dao.DeleteDocument: delete the document row. -/
def deleteDocumentQuery (db : DB) (docId : String) : DB :=
  { db with documents := db.documents.filter (fun d => d.id != docId) }

/-- Controller.deleteTextChunkFromIndex (controller.go lines 778-784): for
every model graph, hnsw graph.Delete of the chunk id; a false return (node
absent) is only logged, never surfaced.  Returns the updated graphs and the
removal events in iteration order. -/
def deleteTextChunkFromIndex (ann : List (String × List AnnNode)) (id : String) :
    List (String × List AnnNode) × List Event :=
  (ann.map (fun mg => (mg.fst, mg.snd.filter (fun n => n.key != id))),
   ann.map (fun mg => Event.annDelete mg.fst id))

/-- Controller.deleteDocumentInternal (controller.go lines 612-639): capture
the chunk ids, then delete — in this order — the TextEmbedding rows, the FTS
rows, the TextChunk rows and the Document row, all through the transaction;
finally, still inside the transaction function, best-effort remove every
captured chunk id from every model graph.  The dao deletes are plain SQL
deletes, total on the embedded store. -/
def annDeleteFoldStep (acc : List (String × List AnnNode) × List Event)
    (cid : String) : List (String × List AnnNode) × List Event :=
  match deleteTextChunkFromIndex acc.fst cid with
  | (ann2, evs2) => (ann2, acc.snd ++ evs2)

def deleteDocumentInternal (s : SysState) (docId : String) : SysState × List Event :=
  let textChunkIds := listTextChunkIdByDocumentID s.db docId
  let db1 := deleteTextEmbeddingsByDocumentID s.db docId
  let db2 := deleteTextChunkFTSByDocumentID db1 docId
  let db3 := deleteTextChunksByDocumentID db2 docId
  let db4 := deleteDocumentQuery db3 docId
  let annStep := textChunkIds.foldl annDeleteFoldStep (s.ann, [])
  ({ db := db4, ann := annStep.fst },
   [Event.delEmbeddingsByDoc docId, Event.delFTSByDoc docId,
    Event.delChunksByDoc docId, Event.delDocument docId] ++ annStep.snd)

/-- Controller.DeleteDocument (controller.go lines 641-660):
deleteDocumentInternal wrapped in utils.WithTx.  The embedded body is total,
so the transaction always commits. -/
def DeleteDocumentOp (s : SysState) (docId : String) :
    (Except String Unit × SysState) × List Event :=
  WithTx s (fun s0 =>
    match deleteDocumentInternal s0 docId with
    | (s1, evs) => ((Except.ok (), s1), evs))

/-- True when no ANN removal event occurs before the first commit event: the
rendering of the claim that chunk ids are removed from the model graphs only
after the transaction commits. -/
def annRemovalOnlyAfterCommit : List Event → Bool
  | [] => true
  | Event.commit :: _ => true
  | Event.annDelete _ _ :: _ => false
  | _ :: rest => annRemovalOnlyAfterCommit rest

theorem annDeleteFoldStep_eq (ann : List (String × List AnnNode))
    (evs0 : List Event) (cid : String) :
    annDeleteFoldStep (ann, evs0) cid =
      (ann.map (fun mg => (mg.fst, mg.snd.filter (fun n => n.key != cid))),
       evs0 ++ ann.map (fun mg => Event.annDelete mg.fst cid)) := rfl

theorem deleteIndexFold_events (ids : List String) :
    ∀ (ann : List (String × List AnnNode)) (evs0 : List Event),
      (ids.foldl annDeleteFoldStep (ann, evs0)).snd =
      evs0 ++ ids.flatMap
        (fun cid => (ann.map Prod.fst).map (fun k => Event.annDelete k cid)) := by
  induction ids with
  | nil => intro ann evs0; simp
  | cons cid rest ih =>
      intro ann evs0
      rw [List.foldl_cons, annDeleteFoldStep_eq, ih]
      simp [List.map_map, Function.comp_def, List.flatMap_cons]

theorem DeleteDocumentOp_eq (s : SysState) (docId : String) :
    DeleteDocumentOp s docId =
      ((Except.ok (), (deleteDocumentInternal s docId).fst),
       (deleteDocumentInternal s docId).snd ++ [Event.commit]) := rfl

theorem deleteDocumentInternal_db (s : SysState) (docId : String) :
    (deleteDocumentInternal s docId).fst.db =
      deleteDocumentQuery (deleteTextChunksByDocumentID
        (deleteTextChunkFTSByDocumentID
          (deleteTextEmbeddingsByDocumentID s.db docId) docId) docId) docId := rfl

theorem deleteDocumentInternal_events (s : SysState) (docId : String) :
    (deleteDocumentInternal s docId).snd =
      [Event.delEmbeddingsByDoc docId, Event.delFTSByDoc docId,
       Event.delChunksByDoc docId, Event.delDocument docId] ++
      (listTextChunkIdByDocumentID s.db docId).flatMap
        (fun cid => (s.ann.map Prod.fst).map (fun k => Event.annDelete k cid)) := by
  show ([Event.delEmbeddingsByDoc docId, Event.delFTSByDoc docId,
       Event.delChunksByDoc docId, Event.delDocument docId] ++
      ((listTextChunkIdByDocumentID s.db docId).foldl annDeleteFoldStep (s.ann, [])).snd) = _
  rw [deleteIndexFold_events]
  simp

/-- The claim that ANN removal happens only after the transaction commits is
false on the code: with one document owning one chunk and one model graph
holding that chunk, DeleteDocument emits the graph removal before the commit
(it runs inside the transaction function), as the explicit trace shows. -/
theorem deleteDocument_ann_removal_before_commit :
    (DeleteDocumentOp
      { db := { documents := [{ id := "d", title := "t", description := "", data := "{}" }],
                chunks := [{ id := "c", documentId := "d", content := "x", segContent := "x" }],
                fts := [{ id := "c", segContent := "x" }],
                embeddings := [{ modelId := "m", textChunkId := "c", vector := [] }] },
        ann := [("m", [{ key := "c", value := [] }])] } "d").snd =
      [Event.delEmbeddingsByDoc "d", Event.delFTSByDoc "d", Event.delChunksByDoc "d",
       Event.delDocument "d", Event.annDelete "m" "c", Event.commit] ∧
    annRemovalOnlyAfterCommit
      ((DeleteDocumentOp
        { db := { documents := [{ id := "d", title := "t", description := "", data := "{}" }],
                  chunks := [{ id := "c", documentId := "d", content := "x", segContent := "x" }],
                  fts := [{ id := "c", segContent := "x" }],
                  embeddings := [{ modelId := "m", textChunkId := "c", vector := [] }] },
          ann := [("m", [{ key := "c", value := [] }])] } "d").snd) = false := by
  constructor
  · rfl
  · rfl

/-- Claim C3 as amended: DeleteDocument deletes, within one transaction and in
this order, the TextEmbedding rows of the document's chunks, then the FTS
rows, then the TextChunk rows, then the Document row; then — still inside the
transaction function, before the commit — it best-effort removes every
deleted chunk id from every model's ANN graph (per chunk, over all graphs),
with removal failures only logged; the operation always reports success, and
afterwards no document row or chunk row of the document remains. -/
theorem deleteDocument_order_and_best_effort (s : SysState) (docId : String) :
    (DeleteDocumentOp s docId).fst.fst = Except.ok () ∧
    (DeleteDocumentOp s docId).snd =
      [Event.delEmbeddingsByDoc docId, Event.delFTSByDoc docId,
       Event.delChunksByDoc docId, Event.delDocument docId] ++
      (listTextChunkIdByDocumentID s.db docId).flatMap
        (fun cid => (s.ann.map Prod.fst).map (fun k => Event.annDelete k cid)) ++
      [Event.commit] ∧
    (∀ d ∈ (DeleteDocumentOp s docId).fst.snd.db.documents, d.id ≠ docId) ∧
    (∀ c ∈ (DeleteDocumentOp s docId).fst.snd.db.chunks, c.documentId ≠ docId) := by
  refine ⟨?_, ?_, ?_, ?_⟩
  · rw [DeleteDocumentOp_eq]
  · rw [DeleteDocumentOp_eq]
    simp only [deleteDocumentInternal_events]
  · intro d hd
    rw [DeleteDocumentOp_eq] at hd
    simp only [deleteDocumentInternal_db, deleteDocumentQuery, List.mem_filter] at hd
    simpa using hd.2
  · intro c hc
    rw [DeleteDocumentOp_eq] at hc
    simp only [deleteDocumentInternal_db, deleteDocumentQuery,
      deleteTextChunksByDocumentID, List.mem_filter] at hc
    simpa using hc.2

/-! ### Model enumeration (controller.go lines 967-973, cmd/mcp.go ListModels) -/

/-- Embeds Controller.ListEmbeddingModels: collect the configured embedding
model ids (the keys of c.embeddingModels) and return them; nothing else is
appended by the server. -/
def ListEmbeddingModels (ctrl : Controller) : List String :=
  ctrl.models.map Prod.fst

/-- Embeds the MCP client tool ListModels (cmd/mcp.go): fetch the server's
model list, then append the lexical engine name BM25 client-side. -/
def mcpListModels (serverModels : List String) : List String :=
  serverModels ++ ["BM25"]

/-- The claim that the server's model enumeration includes the lexical engine
name is false on the code: with one configured embedding model m1, the
endpoint returns exactly m1 and no casing of the lexical engine name. -/
theorem listEmbeddingModels_missing_lexical_name :
    ListEmbeddingModels
      { tokenize := fun _ => [], normalize := fun t => Except.ok t,
        models := [("m1", { embed := fun _ => Except.error "unused" })] } = ["m1"] ∧
    "bm25" ∉ ListEmbeddingModels
      { tokenize := fun _ => [], normalize := fun t => Except.ok t,
        models := [("m1", { embed := fun _ => Except.error "unused" })] } ∧
    "BM25" ∉ ListEmbeddingModels
      { tokenize := fun _ => [], normalize := fun t => Except.ok t,
        models := [("m1", { embed := fun _ => Except.error "unused" })] } := by
  refine ⟨rfl, ?_, ?_⟩ <;> simp [ListEmbeddingModels]

/-- Claim C6 as amended: the server-side enumeration returns exactly the
configured embedding model ids, without the lexical engine name; the name
BM25 is appended client-side by the MCP list_models tool, so the end-to-end
MCP enumeration holds exactly the model ids plus the lexical engine name. -/
theorem mcp_listModels_ids_plus_lexical (ctrl : Controller) :
    mcpListModels (ListEmbeddingModels ctrl) = ctrl.models.map Prod.fst ++ ["BM25"] ∧
    ∀ x : String, x ∈ mcpListModels (ListEmbeddingModels ctrl) ↔
      (x ∈ ctrl.models.map Prod.fst ∨ x = "BM25") := by
  refine ⟨rfl, ?_⟩
  intro x
  simp [mcpListModels, ListEmbeddingModels]

/-! ### Vector search (controller.go lines 867-928) -/

/-- One entry of hnsw SearchWithDistance output: chunk id and distance.  The
distance is modelled as a rational number (the Go float32 distances are
totally ordered values produced by the external graph). -/
structure SearchHit where
  key : String
  distance : Rat
deriving DecidableEq, Repr

/-- controller.SearchResultItem (vector branch): chunk and document fields
plus the derived score. -/
structure SearchResultItem where
  textChunkId : String
  content : String
  documentId : String
  title : String
  description : String
  score : Rat
deriving DecidableEq, Repr

/-- One write distanceMap[k] = v of the Go map: overwrite the entry if the
key is present, append otherwise. -/
def mapInsert (m : List (String × Rat)) (k : String) (v : Rat) : List (String × Rat) :=
  if m.any (fun kv => kv.fst == k) then
    m.map (fun kv => if kv.fst == k then (k, v) else kv)
  else m ++ [(k, v)]

/-- The distanceMap build loop of searchWithEmbeddingModel: for each hit,
distanceMap[hit.Key] = hit.Distance (later writes win). -/
def distanceMapOf (hits : List SearchHit) : List (String × Rat) :=
  hits.foldl (fun m h => mapInsert m h.key h.distance) []

/-- Go map read with zero value: distanceMap[k] is the stored value, or 0 when
the key is absent. -/
def mapGetD (m : List (String × Rat)) (k : String) (d : Rat) : Rat :=
  match m.find? (fun kv => kv.fst == k) with
  | some kv => kv.snd
  | none => d

/-- The hydration query of searchWithEmbeddingModel: SELECT from text_chunk
JOIN document ON document.id = text_chunk.document_id WHERE text_chunk.id IN
(the ANN hit ids).  Row order follows the chunk table; an ANN id with no
chunk row simply produces no row. -/
def hydrateRows (db : DB) (ids : List String) : List (TextChunk × DocumentRow) :=
  db.chunks.flatMap (fun tc =>
    if ids.contains tc.id then
      (db.documents.filter (fun d => d.id == tc.documentId)).map (fun d => (tc, d))
    else [])

/-- Embeds Controller.searchWithEmbeddingModel: embed the query (exactly one
vector required), run the ANN search (hnsw SearchWithDistance, external,
abstracted as the annSearch argument), hydrate the returned ids against the
relational store, attach score = -distance to each row, and sort by
descending score (sort.Slice with a greater-than comparison, modelled as a
comparison sort by non-increasing score). -/
def searchWithEmbeddingModel (model : EmbeddingModel)
    (annSearch : List Nat → Nat → List SearchHit) (db : DB)
    (query : String) (nDoc : Nat) : Except String (List SearchResultItem) :=
  match model.embed [query] with
  | Except.error e => Except.error e
  | Except.ok [qv] =>
    let searchResult := annSearch qv nDoc
    let distanceMap := distanceMapOf searchResult
    let rows := hydrateRows db (searchResult.map (fun h => h.key))
    let results := rows.map (fun r =>
      { textChunkId := r.fst.id, content := r.fst.content,
        documentId := r.fst.documentId, title := r.snd.title,
        description := r.snd.description,
        score := -(mapGetD distanceMap r.fst.id 0) : SearchResultItem })
    Except.ok (results.insertionSort (fun a b => b.score ≤ a.score))
  | Except.ok _ =>
    Except.error "embedding model returned unexpected number of embeddings"

theorem mem_hydrateRows (db : DB) (ids : List String)
    (r : TextChunk × DocumentRow) (h : r ∈ hydrateRows db ids) :
    r.fst ∈ db.chunks ∧ r.fst.id ∈ ids ∧ r.snd ∈ db.documents ∧
    r.snd.id = r.fst.documentId := by
  unfold hydrateRows at h
  rw [List.mem_flatMap] at h
  obtain ⟨tc, htc, hr⟩ := h
  by_cases hin : ids.contains tc.id
  · rw [if_pos hin] at hr
    rw [List.mem_map] at hr
    obtain ⟨d, hd, hrd⟩ := hr
    rw [List.mem_filter] at hd
    subst hrd
    refine ⟨htc, ?_, hd.1, by simpa using hd.2⟩
    simpa using hin
  · rw [if_neg hin] at hr
    simp at hr

/-- Claim C9: under a well-behaved query embedding, a vector-model search
never fails at hydration: it returns a result list in which every entry has a
TextChunk row in the relational store and stems from an ANN hit — ANN hits
whose chunk id has no relational row are silently dropped. -/
theorem vector_search_hydration_filters (model : EmbeddingModel)
    (annSearch : List Nat → Nat → List SearchHit) (db : DB)
    (query : String) (nDoc : Nat) (qv : List Nat)
    (hemb : model.embed [query] = Except.ok [qv]) :
    ∃ results, searchWithEmbeddingModel model annSearch db query nDoc =
      Except.ok results ∧
      ∀ r ∈ results, (∃ tc ∈ db.chunks, tc.id = r.textChunkId) ∧
        r.textChunkId ∈ (annSearch qv nDoc).map SearchHit.key := by
  simp only [searchWithEmbeddingModel, hemb]
  refine ⟨_, rfl, ?_⟩
  intro r hr
  rw [(List.perm_insertionSort (fun a b : SearchResultItem => b.score ≤ a.score) _).mem_iff] at hr
  rw [List.mem_map] at hr
  obtain ⟨row, hrow, hmk⟩ := hr
  obtain ⟨hc, hid, _, _⟩ := mem_hydrateRows db _ row hrow
  subst hmk
  refine ⟨⟨row.fst, hc, rfl⟩, ?_⟩
  simpa using hid

/-- Concrete store for the C9 witness: one document owning one chunk. -/
def hydrationDb : DB :=
  { documents := [{ id := "d", title := "t", description := "", data := "{}" }],
    chunks := [{ id := "c1", documentId := "d", content := "x", segContent := "x" }],
    fts := [], embeddings := [] }

/-- Concrete ANN search for the C9 witness: two hits, one dangling. -/
def hydrationAnnSearch : List Nat → Nat → List SearchHit :=
  fun _ _ => [{ key := "c1", distance := 1 }, { key := "gone", distance := 2 }]

/-- Concrete embedding model for the C9 witness. -/
def hydrationModel : EmbeddingModel := { embed := fun _ => Except.ok [[1]] }

/-- Witness for C9: two ANN hits, only one of which has a chunk row; the
search succeeds and returns the single hydrated result, silently omitting the
dangling hit. -/
theorem vector_search_hydration_filters_witness :
    (∃ results, searchWithEmbeddingModel hydrationModel hydrationAnnSearch hydrationDb
      "q" 2 = Except.ok results ∧
      ∀ r ∈ results, (∃ tc ∈ hydrationDb.chunks, tc.id = r.textChunkId) ∧
        r.textChunkId ∈ (hydrationAnnSearch [1] 2).map SearchHit.key) ∧
    searchWithEmbeddingModel hydrationModel hydrationAnnSearch hydrationDb "q" 2 =
      Except.ok [{ textChunkId := "c1", content := "x", documentId := "d", title := "t", description := "", score := -1 }] :=
  ⟨vector_search_hydration_filters hydrationModel hydrationAnnSearch hydrationDb
    "q" 2 [1] rfl, by rfl⟩

theorem mem_mapInsert (m : List (String × Rat)) (k : String) (v : Rat)
    (kv : String × Rat) (h : kv ∈ mapInsert m k v) : kv ∈ m ∨ kv = (k, v) := by
  unfold mapInsert at h
  split at h
  · rw [List.mem_map] at h
    obtain ⟨kv0, hkv0, him⟩ := h
    by_cases hc : kv0.fst == k
    · rw [if_pos hc] at him
      exact Or.inr him.symm
    · rw [if_neg hc] at him
      exact Or.inl (him ▸ hkv0)
  · rw [List.mem_append] at h
    rcases h with h | h
    · exact Or.inl h
    · simp at h
      exact Or.inr (by rw [h])

theorem foldl_mapInsert_mem (hits : List SearchHit) :
    ∀ (m0 : List (String × Rat)) (kv : String × Rat),
      kv ∈ hits.foldl (fun m h => mapInsert m h.key h.distance) m0 →
      kv ∈ m0 ∨ ∃ hit ∈ hits, hit.key = kv.fst ∧ hit.distance = kv.snd := by
  induction hits with
  | nil => intro m0 kv h; exact Or.inl (by simpa using h)
  | cons hd rest ih =>
      intro m0 kv h
      rw [List.foldl_cons] at h
      rcases ih (mapInsert m0 hd.key hd.distance) kv h with h2 | h2
      · rcases mem_mapInsert m0 hd.key hd.distance kv h2 with h3 | h3
        · exact Or.inl h3
        · exact Or.inr ⟨hd, by simp, by rw [h3], by rw [h3]⟩
      · obtain ⟨hit, hh, h4, h5⟩ := h2
        exact Or.inr ⟨hit, by simp [hh], h4, h5⟩

theorem distanceMapOf_entries (hits : List SearchHit) (kv : String × Rat)
    (h : kv ∈ distanceMapOf hits) :
    ∃ hit ∈ hits, hit.key = kv.fst ∧ hit.distance = kv.snd := by
  rcases foldl_mapInsert_mem hits [] kv h with h2 | h2
  · simp at h2
  · exact h2

theorem exists_mapInsert_self (m : List (String × Rat)) (k : String) (v : Rat) :
    ∃ kv ∈ mapInsert m k v, kv.fst = k := by
  unfold mapInsert
  split
  · rename_i hany
    rw [List.any_eq_true] at hany
    obtain ⟨kv0, hkv0, hc⟩ := hany
    refine ⟨(k, v), ?_, rfl⟩
    rw [List.mem_map]
    exact ⟨kv0, hkv0, by rw [if_pos hc]⟩
  · exact ⟨(k, v), by simp, rfl⟩

theorem exists_mapInsert_keep (m : List (String × Rat)) (k0 : String) (v : Rat)
    (k : String) (h : ∃ kv ∈ m, kv.fst = k) :
    ∃ kv ∈ mapInsert m k0 v, kv.fst = k := by
  obtain ⟨kv0, hkv0, hfst⟩ := h
  unfold mapInsert
  split
  · by_cases hc : kv0.fst == k0
    · refine ⟨(k0, v), ?_, ?_⟩
      · rw [List.mem_map]
        exact ⟨kv0, hkv0, by rw [if_pos hc]⟩
      · have : kv0.fst = k0 := by simpa using hc
        rw [← this, hfst]
    · refine ⟨kv0, ?_, hfst⟩
      rw [List.mem_map]
      exact ⟨kv0, hkv0, by rw [if_neg hc]⟩
  · exact ⟨kv0, by simp [hkv0], hfst⟩

theorem distanceMapOf_domain (hits : List SearchHit) (k : String)
    (h : k ∈ hits.map SearchHit.key) :
    ∃ kv ∈ distanceMapOf hits, kv.fst = k := by
  suffices hgen : ∀ (m0 : List (String × Rat)),
      (k ∈ hits.map SearchHit.key ∨ ∃ kv ∈ m0, kv.fst = k) →
      ∃ kv ∈ hits.foldl (fun m h2 => mapInsert m h2.key h2.distance) m0, kv.fst = k by
    exact hgen [] (Or.inl h)
  clear h
  induction hits with
  | nil =>
      intro m0 h
      rcases h with h | h
      · simp at h
      · simpa using h
  | cons hd rest ih =>
      intro m0 h
      rw [List.foldl_cons]
      rcases h with h | h
      · simp only [List.map_cons, List.mem_cons] at h
        rcases h with h | h
        · exact ih _ (Or.inr (h ▸ exists_mapInsert_self m0 hd.key hd.distance))
        · exact ih _ (Or.inl h)
      · exact ih _ (Or.inr (exists_mapInsert_keep m0 hd.key hd.distance k h))

theorem distanceMap_lookup (hits : List SearchHit) (k : String)
    (h : k ∈ hits.map SearchHit.key) :
    ∃ hit ∈ hits, hit.key = k ∧ mapGetD (distanceMapOf hits) k 0 = hit.distance := by
  obtain ⟨kv, hkv, hfst⟩ := distanceMapOf_domain hits k h
  have hfind : ((distanceMapOf hits).find? (fun kv2 => kv2.fst == k)).isSome := by
    rw [List.find?_isSome]
    exact ⟨kv, hkv, by simp [hfst]⟩
  obtain ⟨kv2, hkv2⟩ := Option.isSome_iff_exists.mp hfind
  have hmem := List.mem_of_find?_eq_some hkv2
  have hp : kv2.fst = k := by simpa using List.find?_some hkv2
  obtain ⟨hit, hhit, hkey, hdist⟩ := distanceMapOf_entries hits kv2 hmem
  refine ⟨hit, hhit, by rw [hkey, hp], ?_⟩
  unfold mapGetD
  rw [hkv2]
  exact hdist.symm

theorem nodup_subset_length {l1 l2 : List String} (h1 : l1.Nodup)
    (h2 : ∀ x ∈ l1, x ∈ l2) : l1.length ≤ l2.length := by
  calc l1.length = l1.toFinset.card := (List.toFinset_card_of_nodup h1).symm
  _ ≤ l2.toFinset.card := by
      apply Finset.card_le_card
      intro x hx
      rw [List.mem_toFinset] at hx ⊢
      exact h2 x hx
  _ ≤ l2.length := List.toFinset_card_le l2

theorem length_filter_key_le_one {A : Type} (l : List A) (g : A → String)
    (c : String) (h : (l.map g).Nodup) :
    (l.filter (fun x => g x == c)).length ≤ 1 := by
  induction l with
  | nil => simp
  | cons a rest ih =>
      simp only [List.map_cons, List.nodup_cons] at h
      obtain ⟨hni, hrest⟩ := h
      by_cases hc : g a == c
      · have hzero : (rest.filter (fun x => g x == c)).length = 0 := by
          rw [List.length_eq_zero, List.filter_eq_nil_iff]
          intro x hx hgx
          apply hni
          have hga : g a = c := by simpa using hc
          have hgx2 : g x = c := by simpa using hgx
          rw [List.mem_map]
          exact ⟨x, hx, by rw [hgx2, hga]⟩
        simp only [List.filter_cons, hc, if_true, List.length_cons, hzero]
        omega
      · rw [Bool.not_eq_true] at hc
        simp only [List.filter_cons, hc, if_false]
        exact ih hrest

theorem sum_indicator_eq_length_filter {A : Type} (l : List A) (p : A → Bool) :
    (l.map (fun a => if p a then 1 else 0)).sum = (l.filter p).length := by
  induction l with
  | nil => rfl
  | cons a rest ih =>
      by_cases hp : p a
      · rw [List.map_cons, List.sum_cons, if_pos hp, List.filter_cons_of_pos hp,
          List.length_cons, ih]
        omega
      · rw [List.map_cons, List.sum_cons, if_neg hp,
          List.filter_cons_of_neg (by simpa using hp), ih]
        omega

theorem hydrateRows_length_le (db : DB) (ids : List String)
    (hC : (db.chunks.map TextChunk.id).Nodup)
    (hD : (db.documents.map DocumentRow.id).Nodup) :
    (hydrateRows db ids).length ≤ ids.length := by
  unfold hydrateRows
  rw [List.length_flatMap]
  have hstep : (db.chunks.map (List.length ∘ fun tc =>
      if ids.contains tc.id then
        (db.documents.filter (fun d => d.id == tc.documentId)).map (fun d => (tc, d))
      else [])).sum ≤
      (db.chunks.map (fun tc => if ids.contains tc.id then 1 else 0)).sum := by
    apply List.sum_le_sum
    intro tc _
    by_cases hin : tc.id ∈ ids
    · have hin2 : ids.contains tc.id = true := by simpa using hin
      simp only [Function.comp_apply, hin2, if_true, hin, List.length_map]
      exact length_filter_key_le_one db.documents DocumentRow.id tc.documentId hD
    · have hin2 : ids.contains tc.id = false := by simpa using hin
      simp [Function.comp_apply, hin2, hin]
  refine le_trans hstep ?_
  rw [sum_indicator_eq_length_filter]
  have hsub : ∀ x ∈ (db.chunks.filter (fun tc => ids.contains tc.id)).map TextChunk.id,
      x ∈ ids := by
    intro x hx
    rw [List.mem_map] at hx
    obtain ⟨tc, htc, hid⟩ := hx
    rw [List.mem_filter] at htc
    rw [← hid]
    simpa using htc.2
  have hnd : ((db.chunks.filter (fun tc => ids.contains tc.id)).map TextChunk.id).Nodup :=
    List.Nodup.sublist (List.Sublist.map TextChunk.id (List.filter_sublist db.chunks)) hC
  calc (db.chunks.filter (fun tc => ids.contains tc.id)).length
      = ((db.chunks.filter (fun tc => ids.contains tc.id)).map TextChunk.id).length := by
        rw [List.length_map]
  _ ≤ ids.length := nodup_subset_length hnd hsub

/-- Claim C5: for a vector-model search, every returned result carries
score = -distance of the ANN hit for its chunk, the returned list is sorted
in non-increasing score order, and it holds at most the requested limit of
results (given that the ANN graph honours its at-most-k contract and the
relational keys are unique). -/
theorem vector_search_score_order_limit (model : EmbeddingModel)
    (annSearch : List Nat → Nat → List SearchHit) (db : DB)
    (query : String) (nDoc : Nat) (qv : List Nat) (results : List SearchResultItem)
    (hemb : model.embed [query] = Except.ok [qv])
    (hk : (annSearch qv nDoc).length ≤ nDoc)
    (hC : (db.chunks.map TextChunk.id).Nodup)
    (hD : (db.documents.map DocumentRow.id).Nodup)
    (hres : searchWithEmbeddingModel model annSearch db query nDoc =
      Except.ok results) :
    (∀ r ∈ results, ∃ hit ∈ annSearch qv nDoc,
      hit.key = r.textChunkId ∧ r.score = -hit.distance) ∧
    List.Pairwise (fun a b => b.score ≤ a.score) results ∧
    results.length ≤ nDoc := by
  simp only [searchWithEmbeddingModel, hemb] at hres
  rw [Except.ok.injEq] at hres
  subst hres
  refine ⟨?_, ?_, ?_⟩
  · intro r hr
    rw [(List.perm_insertionSort
      (fun a b : SearchResultItem => b.score ≤ a.score) _).mem_iff] at hr
    rw [List.mem_map] at hr
    obtain ⟨row, hrow, hmk⟩ := hr
    obtain ⟨_, hid, _, _⟩ := mem_hydrateRows db _ row hrow
    obtain ⟨hit, hhit, hkey, hget⟩ := distanceMap_lookup (annSearch qv nDoc) row.fst.id
      (by simpa using hid)
    refine ⟨hit, hhit, ?_, ?_⟩
    · rw [hkey, ← hmk]
    · rw [← hmk]
      simp only
      rw [hget]
  · haveI hTot : IsTotal SearchResultItem (fun a b => b.score ≤ a.score) :=
      ⟨fun a b => le_total b.score a.score⟩
    haveI hTrans : IsTrans SearchResultItem (fun a b => b.score ≤ a.score) :=
      ⟨fun a b c hab hbc => le_trans hbc hab⟩
    exact List.sorted_insertionSort (fun a b : SearchResultItem => b.score ≤ a.score) _
  · rw [(List.perm_insertionSort
        (fun a b : SearchResultItem => b.score ≤ a.score) _).length_eq,
      List.length_map]
    refine le_trans (hydrateRows_length_le db _ hC hD) ?_
    rw [List.length_map]
    exact hk

/-- Concrete store for the C5 witness: one document owning two chunks. -/
def orderDb : DB :=
  { documents := [{ id := "d", title := "t", description := "", data := "{}" }],
    chunks := [{ id := "c1", documentId := "d", content := "x1", segContent := "x1" },
               { id := "c2", documentId := "d", content := "x2", segContent := "x2" }],
    fts := [], embeddings := [] }

/-- Concrete ANN search for the C5 witness: two hits in non-sorted order. -/
def orderAnnSearch : List Nat → Nat → List SearchHit :=
  fun _ _ => [{ key := "c1", distance := 2 }, { key := "c2", distance := 1 }]

/-- Concrete embedding model for the C5 witness. -/
def orderModel : EmbeddingModel := { embed := fun _ => Except.ok [[1]] }

/-- Witness for C5: the two hydrated hits come back sorted by descending
negated distance, with at most the requested two results. -/
theorem vector_search_score_order_limit_witness :
    (∀ r ∈ [({ textChunkId := "c2", content := "x2", documentId := "d", title := "t", description := "", score := -1 } : SearchResultItem),
            ({ textChunkId := "c1", content := "x1", documentId := "d", title := "t", description := "", score := -2 } : SearchResultItem)],
      ∃ hit ∈ orderAnnSearch [1] 2, hit.key = r.textChunkId ∧ r.score = -hit.distance) ∧
    List.Pairwise (fun a b : SearchResultItem => b.score ≤ a.score)
      [({ textChunkId := "c2", content := "x2", documentId := "d", title := "t", description := "", score := -1 } : SearchResultItem),
       ({ textChunkId := "c1", content := "x1", documentId := "d", title := "t", description := "", score := -2 } : SearchResultItem)] ∧
    ([({ textChunkId := "c2", content := "x2", documentId := "d", title := "t", description := "", score := -1 } : SearchResultItem),
      ({ textChunkId := "c1", content := "x1", documentId := "d", title := "t", description := "", score := -2 } : SearchResultItem)]).length ≤ 2 :=
  vector_search_score_order_limit orderModel orderAnnSearch orderDb "q" 2 [1]
    [{ textChunkId := "c2", content := "x2", documentId := "d", title := "t", description := "", score := -1 },
     { textChunkId := "c1", content := "x1", documentId := "d", title := "t", description := "", score := -2 }]
    rfl (by decide) (by decide) (by decide) rfl

/-! ### Search dispatcher and limit fallback (controller.go lines 934-965) -/

/-- Digit-run parser underlying the strconv.Atoi model: consumes decimal
digits, failing on any non-digit. -/
def parseDigitsAux : List Char → Nat → Option Nat
  | [], acc => some acc
  | c :: rest, acc =>
    if c.isDigit then parseDigitsAux rest (acc * 10 + (c.toNat - 48))
    else none

/-- Models strconv.Atoi: an optional sign followed by at least one decimal
digit; anything else is a parse error (none). -/
def Atoi (s : String) : Option Int :=
  match s.toList with
  | [] => none
  | '+' :: rest =>
    if rest.isEmpty then none
    else (parseDigitsAux rest 0).map (fun n => (n : Int))
  | '-' :: rest =>
    if rest.isEmpty then none
    else (parseDigitsAux rest 0).map (fun n => -(n : Int))
  | cs => (parseDigitsAux cs 0).map (fun n => (n : Int))

/-- The limit handling of Controller.Search (controller.go lines 942-945):
nDoc, err := strconv.Atoi(nDocParam); if err != nil or nDoc <= 0, nDoc = 10. -/
def effectiveLimit (nDocParam : String) : Int :=
  match Atoi nDocParam with
  | none => 10
  | some nDoc => if nDoc ≤ 0 then 10 else nDoc

/-- Outcome of Controller.Search as seen by the client: a 400, a 500, or the
result list. -/
inductive SearchOutcome where
  | badRequest (msg : String)
  | internalError (msg : String)
  | ok (results : List SearchResultItem)
deriving DecidableEq, Repr

/-- Embeds Controller.Search (controller.go lines 934-965): an empty query is
a BadRequest; the limit falls back to 10 when non-numeric or non-positive;
the lexical engine handles modelId bm25 (case-insensitive; searchWithBM25
runs an external FTS5 MATCH query, abstracted as the bm25 argument); any
other modelId must name a configured embedding model and a loaded ANN graph
(one lookup here, since the two maps share their key set by construction),
and is served by searchWithEmbeddingModel. -/
def Search (ctrl : Controller)
    (bm25 : String → Int → List SearchResultItem)
    (annSearch : String → List Nat → Nat → List SearchHit) (db : DB)
    (modelId query nDocParam : String) : SearchOutcome :=
  if query == "" then SearchOutcome.badRequest "query parameter q is required"
  else
    let nDoc := effectiveLimit nDocParam
    if modelId.toLower == "bm25" then SearchOutcome.ok (bm25 query nDoc)
    else
      match ctrl.models.find? (fun p => p.fst == modelId) with
      | none => SearchOutcome.badRequest "model not found"
      | some p =>
        match searchWithEmbeddingModel p.snd (annSearch modelId) db query nDoc.toNat with
        | Except.error e => SearchOutcome.internalError e
        | Except.ok results => SearchOutcome.ok results

/-- Claim C8: a search whose limit parameter is zero, negative or not
parseable runs with the fixed default limit (10) instead of failing: its
outcome is identical to the same search with limit 10, and the limit
handling itself introduces no error. -/
theorem bad_limit_falls_back_to_default (ctrl : Controller)
    (bm25 : String → Int → List SearchResultItem)
    (annSearch : String → List Nat → Nat → List SearchHit) (db : DB)
    (modelId query nDocParam : String)
    (hbad : Atoi nDocParam = none ∨ ∃ n, Atoi nDocParam = some n ∧ n ≤ 0) :
    effectiveLimit nDocParam = 10 ∧
    Search ctrl bm25 annSearch db modelId query nDocParam =
      Search ctrl bm25 annSearch db modelId query "10" := by
  have h1 : effectiveLimit nDocParam = 10 := by
    unfold effectiveLimit
    rcases hbad with h | ⟨n, hn, hle⟩
    · rw [h]
    · rw [hn]
      simp [hle]
  have h2 : effectiveLimit "10" = 10 := by decide
  refine ⟨h1, ?_⟩
  simp only [Search, h1, h2]

/-- Witness for C8: the limits 0, -5 and abc each fall back to the default
and produce the same outcome as an explicit limit of 10 (shown on a bm25
search over an empty store). -/
theorem bad_limit_falls_back_to_default_witness :
    (effectiveLimit "0" = 10 ∧
      Search { tokenize := fun _ => [], normalize := fun t => Except.ok t, models := [] }
        (fun _ _ => []) (fun _ _ _ => [])
        { documents := [], chunks := [], fts := [], embeddings := [] }
        "bm25" "hi" "0" =
      Search { tokenize := fun _ => [], normalize := fun t => Except.ok t, models := [] }
        (fun _ _ => []) (fun _ _ _ => [])
        { documents := [], chunks := [], fts := [], embeddings := [] }
        "bm25" "hi" "10") ∧
    (effectiveLimit "-5" = 10) ∧
    (effectiveLimit "abc" = 10) := by
  refine ⟨?_, ?_, ?_⟩
  · exact bad_limit_falls_back_to_default
      { tokenize := fun _ => [], normalize := fun t => Except.ok t, models := [] }
      (fun _ _ => []) (fun _ _ _ => [])
      { documents := [], chunks := [], fts := [], embeddings := [] }
      "bm25" "hi" "0" (Or.inr ⟨0, by decide, by decide⟩)
  · exact (bad_limit_falls_back_to_default
      { tokenize := fun _ => [], normalize := fun t => Except.ok t, models := [] }
      (fun _ _ => []) (fun _ _ _ => [])
      { documents := [], chunks := [], fts := [], embeddings := [] }
      "bm25" "hi" "-5" (Or.inr ⟨-5, by decide, by decide⟩)).1
  · exact (bad_limit_falls_back_to_default
      { tokenize := fun _ => [], normalize := fun t => Except.ok t, models := [] }
      (fun _ _ => []) (fun _ _ _ => [])
      { documents := [], chunks := [], fts := [], embeddings := [] }
      "bm25" "hi" "abc" (Or.inl (by decide))).1
